import Mathlib

/-!
Verification of the clidecode BIRD-socket client.

Text is modelled as `List Char` (the program only manipulates ASCII wire
text).  Each Go function used by the claims is translated into an
executable Lean definition; socket I/O is factored out by passing either
the daemon's raw response lines or a query function
(command ↦ transport result) as an argument.
-/

/-- Wire text: a list of characters. -/
abbrev Str := List Char

/-- Convert a Lean string literal to wire text. -/
def s2l (s : String) : Str := s.data

/-- Go `unicode.IsSpace` restricted to ASCII (space, \t, \n, \v, \f, \r),
    as used by `strings.TrimSpace` and `strings.Fields`. -/
def goIsSpace (c : Char) : Bool :=
  c = ' ' || c = '\t' || c = '\n' || c = '\x0b' || c = '\x0c' || c = '\r'

/-- ASCII decimal digit test, mirroring Go's `c >= '0' && c <= '9'`. -/
def isDigitChar (c : Char) : Bool := '0' ≤ c && c ≤ '9'

/-- Go `strings.TrimSpace`: drop leading and trailing whitespace. -/
def trimSpace (s : Str) : Str :=
  ((s.dropWhile goIsSpace).reverse.dropWhile goIsSpace).reverse

/-- Go `strings.Split` with a one-character separator. -/
def splitOnChar (sep : Char) : Str → List Str
  | [] => [[]]
  | c :: cs =>
    if c = sep then [] :: splitOnChar sep cs
    else
      match splitOnChar sep cs with
      | [] => [[c]]
      | t :: ts => (c :: t) :: ts

/-- Worker for `fields`: `cur` is the current token, reversed. -/
def fieldsGo : Str → Str → List Str
  | [], cur => if cur = [] then [] else [cur.reverse]
  | c :: cs, cur =>
    if goIsSpace c then
      if cur = [] then fieldsGo cs [] else cur.reverse :: fieldsGo cs []
    else fieldsGo cs (c :: cur)

/-- Go `strings.Fields`: maximal runs of non-whitespace characters. -/
def fields (s : Str) : List Str := fieldsGo s []

/-- Does `s` start with `pat`? (Go `strings.HasPrefix`.) -/
def startsWithL : Str → Str → Bool
  | _, [] => true
  | [], _ :: _ => false
  | c :: cs, p :: ps => c = p && startsWithL cs ps

/-- Go `strings.Contains`: `sub` occurs somewhere in `s`. -/
def containsSub (s sub : Str) : Bool :=
  if startsWithL s sub then true
  else
    match s with
    | [] => false
    | _ :: cs => containsSub cs sub

/-- Go `strings.Replace(s, pat, rep, 1)`: replace the first occurrence
    of the (non-empty) pattern `pat` by `rep`. -/
def replaceOnce (s pat rep : Str) : Str :=
  match s with
  | [] => if pat = [] then rep else []
  | c :: cs =>
    if startsWithL (c :: cs) pat then rep ++ (c :: cs).drop pat.length
    else c :: replaceOnce cs pat rep

/-- Join tokens with single spaces (shape of a normalized AS-path text). -/
def joinSp : List Str → Str
  | [] => []
  | [t] => t
  | t :: ts => t ++ ' ' :: joinSp ts

/-! ## Session transport: the read loop of `querySocket` (socket.go)

The handshake has succeeded; the remaining input is the list of response
lines (each as delivered by `ReadString('\n')` with its trailing newline
already removed by `strings.TrimRight(line, "\n")`).  Running out of
lines before a terminal status line corresponds to a read error. -/

/-- Result of the `querySocket` read loop.  Go returns the pair
    `(string, error)`; on both error constructors the returned string
    is `""`. -/
inductive QueryResult where
  | ok (payload : Str)
  | birdError (msg : Str)
  | readError
deriving DecidableEq

/-- The string component of the Go return value `(string, error)`. -/
def queryPayload : QueryResult → Str
  | .ok p => p
  | .birdError _ => []
  | .readError => []

/-- The read loop of `querySocket` (socket.go lines 57–123), over the
    response lines and the accumulated output builder. -/
def querySocketLoop : List Str → Str → QueryResult
  | [], _ => .readError
  | line :: rest, acc =>
    if line.head? = some ' ' then
      querySocketLoop rest (acc ++ line.tail ++ ['\n'])
    else if 4 ≤ line.length then
      if (line.take 4).all isDigitChar then
        if line.head? = some '0' then
          if 5 < line.length ∧ (line.get? 4 = some ' ' ∨ line.get? 4 = some '-') then
            .ok (trimSpace (acc ++ line.drop 5 ++ ['\n']))
          else .ok (trimSpace acc)
        else if line.head? = some '8' ∨ line.head? = some '9' then
          .birdError (s2l "BIRD error: " ++ line)
        else
          if 5 < line.length ∧ (line.get? 4 = some '-' ∨ line.get? 4 = some ' ') then
            querySocketLoop rest (acc ++ line.drop 5 ++ ['\n'])
          else querySocketLoop rest acc
      else querySocketLoop rest (acc ++ line ++ ['\n'])
    else if line ≠ [] then querySocketLoop rest (acc ++ line ++ ['\n'])
    else querySocketLoop rest acc

/-! ## Claims C1–C3: session framing -/

/-- C1 (counterexample): with the single response line `0000 ok`, the
    loop does not return an empty payload — the text after the status
    code is included. -/
theorem querySocket_zero_ok_not_empty :
    querySocketLoop [s2l "0000 ok"] [] ≠ QueryResult.ok [] := by decide

/-- C1 (amended): with the response line `0000 ok` first, the loop stops
    reading immediately (any further lines are ignored) and returns, with
    no error, the payload `ok` — the text after the code and separator. -/
theorem querySocket_zero_ok_payload (rest : List Str) :
    querySocketLoop (s2l "0000 ok" :: rest) [] = QueryResult.ok (s2l "ok") := by
  rfl

/-- C2: a response line whose first four characters are ASCII digits with
    leading digit `8` or `9` stops the read loop: it returns a daemon
    error carrying the raw line verbatim, and the string component of the
    Go return value is empty regardless of the buffered payload. -/
theorem querySocket_error_line (l : Str) (rest : List Str) (acc : Str)
    (h4 : 4 ≤ l.length) (hd : (l.take 4).all isDigitChar = true)
    (h89 : l.head? = some '8' ∨ l.head? = some '9') :
    querySocketLoop (l :: rest) acc = QueryResult.birdError (s2l "BIRD error: " ++ l) ∧
      queryPayload (querySocketLoop (l :: rest) acc) = [] := by
  have hsp : ¬ l.head? = some ' ' := by
    rcases h89 with h | h <;> rw [h] <;> decide
  have h0 : ¬ l.head? = some '0' := by
    rcases h89 with h | h <;> rw [h] <;> decide
  refine ⟨?_, ?_⟩ <;> simp [querySocketLoop, hsp, h4, hd, h0, h89, queryPayload]

/-- C2 witness: a concrete runtime-error line aborts the session with the
    raw line in the message, discarding the buffered payload. -/
theorem querySocket_error_line_witness :
    querySocketLoop [s2l "8001 out of memory", s2l "junk"] (s2l "buffered\n") =
      QueryResult.birdError (s2l "BIRD error: 8001 out of memory") :=
  (querySocket_error_line (s2l "8001 out of memory") [s2l "junk"] (s2l "buffered\n")
    (by decide) (by decide) (Or.inl (by decide))).1

/-- C3 (counterexample): an empty uncoded line is not appended to the
    payload followed by a newline — it is skipped entirely, which is
    observable in the final payload. -/
theorem querySocket_empty_line_skipped :
    querySocketLoop ([] :: [s2l "b", s2l "0000 x"]) (s2l "a\n") ≠
      querySocketLoop [s2l "b", s2l "0000 x"] (s2l "a\n" ++ [] ++ ['\n']) := by
  decide

/-- C3 (amended): an uncoded line (fewer than 4 leading characters, or a
    non-digit among its first four, and no leading space) keeps the loop
    reading; a non-empty such line is appended verbatim followed by a
    newline, while an empty line is skipped without touching the payload. -/
theorem querySocket_uncoded_line (l : Str) (rest : List Str) (acc : Str)
    (hsp : l.head? ≠ some ' ')
    (hunc : l.length < 4 ∨ (l.take 4).all isDigitChar = false) :
    querySocketLoop (l :: rest) acc =
      querySocketLoop rest (if l = [] then acc else acc ++ l ++ ['\n']) := by
  by_cases hnil : l = []
  · subst hnil
    simp [querySocketLoop]
  · by_cases hlen : 4 ≤ l.length
    · have hdig : (l.take 4).all isDigitChar = false := by
        rcases hunc with h | h
        · omega
        · exact h
      simp [querySocketLoop, hsp, hlen, hdig, hnil]
    · simp [querySocketLoop, hsp, hlen, hnil]

/-- C3 witness: a route line starting `8.8.8.8` is uncoded (its first
    four characters are not all digits) and is buffered verbatim. -/
theorem querySocket_uncoded_line_witness :
    querySocketLoop [s2l "8.8.8.8 via eth0", s2l "0000"] [] =
      querySocketLoop [s2l "0000"] (s2l "8.8.8.8 via eth0" ++ ['\n']) := by
  have h := querySocket_uncoded_line (s2l "8.8.8.8 via eth0") [s2l "0000"] []
    (by decide) (Or.inr (by decide))
  simpa using h

/-! ## Numeric parsing (part_002: stringToUint32) -/

/-- Decimal value of a digit string. -/
def decVal (s : Str) : Nat := s.foldl (fun a c => a * 10 + (c.toNat - '0'.toNat)) 0

/-- Go `strconv.ParseUint(s, 10, 32)`: succeeds exactly on a non-empty
    all-digit string whose value fits in 32 bits. -/
def parseUint32 (s : Str) : Option Nat :=
  if s = [] then none
  else if s.all isDigitChar then
    if decVal s ≤ 2 ^ 32 - 1 then some (decVal s) else none
  else none

/-- `stringToUint32` (part_002 lines 682–693): trim surrounding
    whitespace, return 0 for an empty result or any parse failure. -/
def stringToUint32 (s : Str) : Nat :=
  let t := trimSpace s
  if t = [] then 0
  else (parseUint32 t).getD 0

/-! ## AS-path decoding (part_001: decodeASPaths) -/

/-- A token containing `{` or `}` (Go `strings.ContainsAny(as, "{}")`). -/
def hasBrace (s : Str) : Bool := s.any (fun c => c = '{' || c = '}')

/-- The brace-padding prelude of `decodeASPaths`: pad the first `{` and
    the first `}` with a space so they become separate tokens. -/
def padBraces (s : Str) : Str :=
  if hasBrace s then
    replaceOnce (replaceOnce s ['{'] ['{', ' ']) ['}'] [' ', '}']
  else s

/-- The token loop of `decodeASPaths`: once a brace-bearing token is
    seen, subsequent tokens are appended to the set instead of the path. -/
def decodeASLoop : List Str → Bool → List Nat → List Nat → List Nat × List Nat
  | [], _, path, set => (path, set)
  | as :: rest, isSet, path, set =>
    if hasBrace as then decodeASLoop rest true path set
    else if isSet then decodeASLoop rest isSet path (set ++ [stringToUint32 as])
    else decodeASLoop rest isSet (path ++ [stringToUint32 as]) set

/-- `decodeASPaths` (part_001 lines 32–57): returns (path, set). -/
def decodeASPaths (s : Str) : List Nat × List Nat :=
  decodeASLoop (fields (padBraces s)) false [] []

/-! ## Claims C5, C6, C10: AS-path decoding and numeric parsing -/

/-- C5: the three decoding examples from the specification. -/
theorem decodeASPaths_examples :
    decodeASPaths (s2l "3356 12345") = ([3356, 12345], []) ∧
    decodeASPaths (s2l "3356 12345 9876 \x7b1212\x7d") = ([3356, 12345, 9876], [1212]) ∧
    (decodeASPaths (s2l "3356 12345 9876 \x7b1212 3434\x7d")).2 = [1212, 3434] := by
  refine ⟨by decide, by decide, by decide⟩

/-- C6 (counterexample): on `1 {2} 3`, with exactly one brace block
    present, the claim predicts path `[1]` and set `[2]` (interior tokens
    only); the code instead also appends the trailing token `3` to the
    set, producing `([1], [2, 3])`. -/
theorem decodeASPaths_trailing_token :
    decodeASPaths (s2l "1 \x7b2\x7d 3") ≠ ([1], [2]) ∧
      decodeASPaths (s2l "1 \x7b2\x7d 3") = ([1], [2, 3]) := by
  refine ⟨by decide, by decide⟩

/-- A digit character is not whitespace. -/
theorem digit_not_space {c : Char} (h : isDigitChar c = true) : goIsSpace c = false := by
  by_contra hs
  rw [Bool.not_eq_false] at hs
  simp only [goIsSpace, Bool.or_eq_true, decide_eq_true_eq] at hs
  rcases hs with ((((h1 | h1) | h1) | h1) | h1) | h1 <;> subst h1 <;> exact absurd h (by decide)

/-- A digit character is not a brace. -/
theorem digit_not_brace {c : Char} (h : isDigitChar c = true) : c ≠ '{' ∧ c ≠ '}' := by
  constructor <;> rintro rfl <;> exact absurd h (by decide)

/-- An all-digit token carries no brace. -/
theorem all_digit_no_brace {t : Str} (h : t.all isDigitChar = true) : hasBrace t = false := by
  rw [List.all_eq_true] at h
  simp only [hasBrace, List.any_eq_false]
  intro c hc
  have hd := digit_not_brace (h c hc)
  simp only [Bool.or_eq_true, decide_eq_true_eq]
  rintro (rfl | rfl)
  · exact hd.1 rfl
  · exact hd.2 rfl

/-- `replaceOnce` with a single-character pattern rewrites the first
    occurrence of that character. -/
theorem replaceOnce_first {c : Char} (A B rep : Str) (hA : c ∉ A) :
    replaceOnce (A ++ c :: B) [c] rep = A ++ (rep ++ B) := by
  induction A with
  | nil => simp [replaceOnce, startsWithL]
  | cons a A ih =>
    have hac : ¬ (a = c) := fun h => hA (h ▸ List.mem_cons_self a A)
    have hA' : c ∉ A := fun h => hA (List.mem_cons_of_mem a h)
    have hst : startsWithL (a :: (A ++ c :: B)) [c] = false := by
      simp [startsWithL, hac]
    simp only [List.cons_append, replaceOnce, List.append_eq, hst, Bool.false_eq_true, if_false]
    exact congrArg (a :: ·) (ih hA')

/-- Tokens never span a space: `fieldsGo` distributes over a space. -/
theorem fieldsGo_append_space (Y : Str) :
    ∀ (X cur : Str), fieldsGo (X ++ ' ' :: Y) cur = fieldsGo X cur ++ fieldsGo Y [] := by
  intro X
  induction X with
  | nil =>
    intro cur
    by_cases h : cur = [] <;> simp [fieldsGo, h, goIsSpace]
  | cons x X ih =>
    intro cur
    by_cases hx : goIsSpace x = true
    · by_cases h : cur = [] <;> simp [fieldsGo, hx, h, ih]
    · rw [Bool.not_eq_true] at hx
      simp [fieldsGo, hx, ih]

/-- `fields` distributes over a separating space. -/
theorem fields_append_space (X Y : Str) :
    fields (X ++ ' ' :: Y) = fields X ++ fields Y :=
  fieldsGo_append_space Y X []

/-- A run of non-space characters is accumulated into the current token. -/
theorem fieldsGo_nonspace_chunk :
    ∀ (t s cur : Str), (∀ c ∈ t, goIsSpace c = false) →
      fieldsGo (t ++ s) cur = fieldsGo s (t.reverse ++ cur) := by
  intro t
  induction t with
  | nil => intro s cur _; simp
  | cons a t ih =>
    intro s cur h
    have ha := h a (List.mem_cons_self a t)
    simp only [List.cons_append, fieldsGo, ha, Bool.false_eq_true, if_false, List.append_eq]
    rw [ih s (a :: cur) (fun c hc => h c (List.mem_cons_of_mem a hc))]
    simp

/-- A single non-empty space-free token splits into itself. -/
theorem fields_single_token (t : Str) (h0 : t ≠ [])
    (h : ∀ c ∈ t, goIsSpace c = false) : fields t = [t] := by
  have ht : fields (t ++ []) = fieldsGo [] (t.reverse ++ []) := fieldsGo_nonspace_chunk t [] [] h
  rw [List.append_nil] at ht
  rw [ht]
  have hr : ¬ (t.reverse ++ [] = []) := by simp [h0]
  simp [fieldsGo, hr, h0]

/-- Splitting a space-joined list of non-empty space-free tokens
    recovers the tokens. -/
theorem fields_joinSp :
    ∀ ts : List Str, (∀ t ∈ ts, t ≠ [] ∧ ∀ c ∈ t, goIsSpace c = false) →
      fields (joinSp ts) = ts := by
  intro ts
  induction ts with
  | nil => intro _; simp [joinSp, fields, fieldsGo]
  | cons t ts ih =>
    intro h
    match ts, ih with
    | [], _ =>
      have := h t (List.mem_cons_self t [])
      simpa [joinSp] using fields_single_token t this.1 this.2
    | t2 :: ts, ih =>
      have hjoin : joinSp (t :: t2 :: ts) = t ++ ' ' :: joinSp (t2 :: ts) := rfl
      rw [hjoin, fields_append_space]
      have ht := h t (List.mem_cons_self t (t2 :: ts))
      rw [fields_single_token t ht.1 ht.2, ih (fun u hu => h u (List.mem_cons_of_mem t hu))]
      rfl

/-- Every character of every token of `fieldsGo s cur` comes from `s` or
    from the pending token `cur`. -/
theorem fieldsGo_chars :
    ∀ (s cur t : Str), t ∈ fieldsGo s cur → ∀ c ∈ t, c ∈ s ∨ c ∈ cur := by
  intro s
  induction s with
  | nil =>
    intro cur t ht c hc
    by_cases h : cur = []
    · simp [fieldsGo, h] at ht
    · simp only [fieldsGo, h, if_false, List.mem_singleton] at ht
      subst ht
      exact Or.inr (List.mem_reverse.1 hc)
  | cons a s ih =>
    intro cur t ht c hc
    by_cases ha : goIsSpace a = true
    · by_cases h : cur = []
      · simp only [fieldsGo, ha, h, if_true] at ht
        rcases ih [] t ht c hc with h1 | h1
        · exact Or.inl (List.mem_cons_of_mem a h1)
        · exact absurd h1 (List.not_mem_nil c)
      · simp only [fieldsGo, ha, h, if_true, if_false, List.mem_cons] at ht
        rcases ht with rfl | ht
        · exact Or.inr (List.mem_reverse.1 hc)
        · rcases ih [] t ht c hc with h1 | h1
          · exact Or.inl (List.mem_cons_of_mem a h1)
          · exact absurd h1 (List.not_mem_nil c)
    · rw [Bool.not_eq_true] at ha
      simp only [fieldsGo, ha, Bool.false_eq_true, if_false] at ht
      rcases ih (a :: cur) t ht c hc with h1 | h1
      · exact Or.inl (List.mem_cons_of_mem a h1)
      · rcases List.mem_cons.1 h1 with rfl | h1
        · exact Or.inl (List.mem_cons_self c s)
        · exact Or.inr h1

/-- Characters of tokens of `fields s` come from `s`. -/
theorem fields_chars {s t : Str} (ht : t ∈ fields s) {c : Char} (hc : c ∈ t) : c ∈ s := by
  rcases fieldsGo_chars s [] t ht c hc with h | h
  · exact h
  · exact absurd h (List.not_mem_nil c)

/-- Brace-free tokens are appended to the path while `isSet` is false. -/
theorem decodeASLoop_path (toks : List Str)
    (h : ∀ t ∈ toks, hasBrace t = false) :
    ∀ (T : List Str) (p s : List Nat),
      decodeASLoop (toks ++ T) false p s =
        decodeASLoop T false (p ++ toks.map stringToUint32) s := by
  induction toks with
  | nil => intro T p s; simp
  | cons t toks ih =>
    intro T p s
    have htb := h t (List.mem_cons_self t toks)
    simp only [List.cons_append, decodeASLoop, htb, Bool.false_eq_true, if_false,
      List.append_eq]
    rw [ih (fun u hu => h u (List.mem_cons_of_mem t hu)) T]
    simp

/-- Brace-free tokens are appended to the set while `isSet` is true. -/
theorem decodeASLoop_set (toks : List Str)
    (h : ∀ t ∈ toks, hasBrace t = false) :
    ∀ (T : List Str) (p s : List Nat),
      decodeASLoop (toks ++ T) true p s =
        decodeASLoop T true p (s ++ toks.map stringToUint32) := by
  induction toks with
  | nil => intro T p s; simp
  | cons t toks ih =>
    intro T p s
    have htb := h t (List.mem_cons_self t toks)
    simp only [List.cons_append, decodeASLoop, htb, Bool.false_eq_true, if_false, if_true,
      List.append_eq]
    rw [ih (fun u hu => h u (List.mem_cons_of_mem t hu)) T]
    simp

/-- Characters of a space-join come from a token or are the space. -/
theorem joinSp_chars :
    ∀ (ts : List Str) (c : Char), c ∈ joinSp ts → c = ' ' ∨ ∃ t ∈ ts, c ∈ t := by
  intro ts
  induction ts with
  | nil => intro c hc; simp [joinSp] at hc
  | cons t ts ih =>
    intro c hc
    match ts, ih, hc with
    | [], _, hc =>
      exact Or.inr ⟨t, List.mem_cons_self t [], hc⟩
    | t2 :: ts, ih, hc =>
      have : joinSp (t :: t2 :: ts) = t ++ ' ' :: joinSp (t2 :: ts) := rfl
      rw [this] at hc
      rcases List.mem_append.1 hc with h | h
      · exact Or.inr ⟨t, List.mem_cons_self t (t2 :: ts), h⟩
      · rcases List.mem_cons.1 h with rfl | h
        · exact Or.inl rfl
        · rcases ih c h with h1 | ⟨u, hu, hcu⟩
          · exact Or.inl h1
          · exact Or.inr ⟨u, List.mem_cons_of_mem t hu, hcu⟩

/-- C6 (amended): the set component of `decodeASPaths` is empty when the
    input contains no brace character; and on an input of digit tokens
    followed by one trailing brace-delimited block, the set holds exactly
    the block's interior tokens and the path the preceding tokens.
    (Tokens appearing after a block, or after a stray brace, are instead
    appended to the set, as the counterexample shows.) -/
theorem decodeASPaths_set_structure :
    (∀ s : Str, (∀ c ∈ s, c ≠ '{' ∧ c ≠ '}') → (decodeASPaths s).2 = []) ∧
    (∀ pre int : List Str,
      (∀ t ∈ pre, t ≠ [] ∧ t.all isDigitChar = true) →
      (∀ t ∈ int, t ≠ [] ∧ t.all isDigitChar = true) →
      decodeASPaths (joinSp pre ++ ' ' :: '{' :: (joinSp int ++ ['}'])) =
        (pre.map stringToUint32, int.map stringToUint32)) := by
  constructor
  · intro s h
    have hb : hasBrace s = false := by
      simp only [hasBrace, List.any_eq_false]
      intro c hc
      simp only [Bool.or_eq_true, decide_eq_true_eq]
      rintro (rfl | rfl)
      · exact (h _ hc).1 rfl
      · exact (h _ hc).2 rfl
    have htoks : ∀ t ∈ fields s, hasBrace t = false := by
      intro t ht
      simp only [hasBrace, List.any_eq_false]
      intro c hc
      simp only [Bool.or_eq_true, decide_eq_true_eq]
      have hcs := fields_chars ht hc
      rintro (rfl | rfl)
      · exact (h _ hcs).1 rfl
      · exact (h _ hcs).2 rfl
    rw [decodeASPaths]
    have hpad : padBraces s = s := by simp [padBraces, hb]
    rw [hpad, ← List.append_nil (fields s), decodeASLoop_path (fields s) htoks]
    simp [decodeASLoop]
  · intro pre int hpre hint
    have hpreSp : ∀ t ∈ pre, t ≠ [] ∧ ∀ c ∈ t, goIsSpace c = false := fun t ht =>
      ⟨(hpre t ht).1, fun c hc => digit_not_space (List.all_eq_true.1 (hpre t ht).2 c hc)⟩
    have hintSp : ∀ t ∈ int, t ≠ [] ∧ ∀ c ∈ t, goIsSpace c = false := fun t ht =>
      ⟨(hint t ht).1, fun c hc => digit_not_space (List.all_eq_true.1 (hint t ht).2 c hc)⟩
    have hJpre : ∀ c ∈ joinSp pre, c ≠ '{' ∧ c ≠ '}' := by
      intro c hc
      rcases joinSp_chars pre c hc with rfl | ⟨t, ht, hct⟩
      · exact ⟨by decide, by decide⟩
      · exact digit_not_brace (List.all_eq_true.1 (hpre t ht).2 c hct)
    have hJint : ∀ c ∈ joinSp int, c ≠ '{' ∧ c ≠ '}' := by
      intro c hc
      rcases joinSp_chars int c hc with rfl | ⟨t, ht, hct⟩
      · exact ⟨by decide, by decide⟩
      · exact digit_not_brace (List.all_eq_true.1 (hint t ht).2 c hct)
    have hb : hasBrace (joinSp pre ++ ' ' :: '{' :: (joinSp int ++ ['}'])) = true := by
      simp only [hasBrace, List.any_eq_true]
      refine ⟨'{', ?_, by simp⟩
      simp
    have r1 : replaceOnce (joinSp pre ++ ' ' :: '{' :: (joinSp int ++ ['}'])) ['{'] ['{', ' '] =
        joinSp pre ++ ' ' :: '{' :: ' ' :: (joinSp int ++ ['}']) := by
      have hnm : '{' ∉ joinSp pre ++ [' '] := by
        intro hmem
        rcases List.mem_append.1 hmem with h | h
        · exact (hJpre _ h).1 rfl
        · exact absurd (List.mem_singleton.1 h) (by decide)
      have h := replaceOnce_first (c := '{') (joinSp pre ++ [' ']) (joinSp int ++ ['}'])
        ['{', ' '] hnm
      simpa [List.append_assoc] using h
    have r2 : replaceOnce (joinSp pre ++ ' ' :: '{' :: ' ' :: (joinSp int ++ ['}'])) ['}']
        [' ', '}'] =
        joinSp pre ++ ' ' :: '{' :: ' ' :: (joinSp int ++ ' ' :: ['}']) := by
      have hnm : '}' ∉ joinSp pre ++ ' ' :: '{' :: ' ' :: joinSp int := by
        intro hmem
        rcases List.mem_append.1 hmem with h | h
        · exact (hJpre _ h).2 rfl
        · rcases List.mem_cons.1 h with h1 | h
          · exact absurd h1 (by decide)
          · rcases List.mem_cons.1 h with h1 | h
            · exact absurd h1 (by decide)
            · rcases List.mem_cons.1 h with h1 | h
              · exact absurd h1 (by decide)
              · exact (hJint _ h).2 rfl
      have h := replaceOnce_first (c := '}') (joinSp pre ++ ' ' :: '{' :: ' ' :: joinSp int)
        [] [' ', '}'] hnm
      simpa [List.append_assoc] using h
    have e1 : padBraces (joinSp pre ++ ' ' :: '{' :: (joinSp int ++ ['}'])) =
        joinSp pre ++ ' ' :: '{' :: ' ' :: (joinSp int ++ ' ' :: ['}']) := by
      simp only [padBraces, hb, if_true]
      rw [r1, r2]
    have e2 : fields (joinSp pre ++ ' ' :: '{' :: ' ' :: (joinSp int ++ ' ' :: ['}'])) =
        pre ++ ['{'] :: (int ++ [['}']]) := by
      rw [fields_append_space, fields_joinSp pre hpreSp]
      have hsplit : ('{' :: ' ' :: (joinSp int ++ ' ' :: ['}']) : Str) =
          ['{'] ++ ' ' :: (joinSp int ++ ' ' :: ['}']) := rfl
      rw [hsplit, fields_append_space, fields_append_space, fields_joinSp int hintSp]
      have hob : fields ['{'] = [['{']] := rfl
      have hcb : fields ['}'] = [['}']] := rfl
      rw [hob, hcb]
      simp
    have hpreNB : ∀ t ∈ pre, hasBrace t = false := fun t ht =>
      all_digit_no_brace (hpre t ht).2
    have hintNB : ∀ t ∈ int, hasBrace t = false := fun t ht =>
      all_digit_no_brace (hint t ht).2
    rw [decodeASPaths, e1, e2]
    have hshape : (pre ++ ['{'] :: (int ++ [['}']]) : List Str) =
        pre ++ (['{'] :: (int ++ [['}']])) := rfl
    rw [hshape, decodeASLoop_path pre hpreNB]
    have hstep1 : decodeASLoop (['{'] :: (int ++ [['}']])) false
        ([] ++ pre.map stringToUint32) [] =
        decodeASLoop (int ++ [['}']]) true ([] ++ pre.map stringToUint32) [] := by
      simp [decodeASLoop, hasBrace]
    rw [hstep1, decodeASLoop_set int hintNB]
    simp [decodeASLoop, hasBrace]

/-- C6 witness: one path token and a one-element trailing AS-SET block
    decode to that path and that set. -/
theorem decodeASPaths_set_structure_witness :
    decodeASPaths (joinSp [s2l "3356"] ++ ' ' :: '{' :: (joinSp [s2l "1212"] ++ ['}'])) =
      ([3356], [1212]) :=
  decodeASPaths_set_structure.2 [s2l "3356"] [s2l "1212"] (by decide) (by decide)

/-! ## Totals decoding (part_002: GetBGPTotal, extractRouteCount) -/

/-- The Go result struct `Totals` (part_000). -/
structure Totals where
  V4Rib : Nat
  V4Fib : Nat
  V6Rib : Nat
  V6Fib : Nat
deriving DecidableEq

/-- `\s` of Go regular expressions: `[\t\n\f\r ]`. -/
def reSpace (c : Char) : Bool :=
  c = '\t' || c = '\n' || c = '\x0c' || c = '\r' || c = ' '

/-- Consume a non-empty digit run (`\d+`, greedy). -/
def eatDigits (s : Str) : Option (Str × Str) :=
  let d := s.takeWhile isDigitChar
  if d = [] then none else some (d, s.drop d.length)

/-- Consume a non-empty whitespace run (`\s+`, greedy). -/
def eatSpaces (s : Str) : Option Str :=
  let d := s.takeWhile reSpace
  if d = [] then none else some (s.drop d.length)

/-- Consume a literal. -/
def eatLit (lit s : Str) : Option Str :=
  if startsWithL s lit then some (s.drop lit.length) else none

/-- Match `(\d+)\s+of\s+\d+\s+routes\s+for\s+(\d+)\s+networks` anchored
    at the start of `s`.  For this pattern each greedy token is followed
    by a character class disjoint from it, so greedy matching without
    backtracking is equivalent to the regex engine's behavior. -/
def tryTotalsAt (s : Str) : Option (Str × Str) := do
  let (d1, s) ← eatDigits s
  let s ← eatSpaces s
  let s ← eatLit (s2l "of") s
  let s ← eatSpaces s
  let (_, s) ← eatDigits s
  let s ← eatSpaces s
  let s ← eatLit (s2l "routes") s
  let s ← eatSpaces s
  let s ← eatLit (s2l "for") s
  let s ← eatSpaces s
  let (d2, s) ← eatDigits s
  let s ← eatSpaces s
  let _ ← eatLit (s2l "networks") s
  pure (d1, d2)

/-- Leftmost match of the totals pattern (Go `FindStringSubmatch`),
    returning the two captures. -/
def findTotals : Str → Option (Str × Str)
  | [] => none
  | c :: cs =>
    match tryTotalsAt (c :: cs) with
    | some r => some r
    | none => findTotals cs

/-- The line-scanning body of `GetBGPTotal` (part_002 lines 55–75)
    applied to the query payload. -/
def bgpTotalFromOutput (out : Str) : Totals :=
  (splitOnChar '\n' out).foldl
    (fun t line =>
      match findTotals line with
      | none => t
      | some (d1, d2) =>
        if containsSub line (s2l "master4") then
          { t with V4Rib := stringToUint32 d1, V4Fib := stringToUint32 d2 }
        else if containsSub line (s2l "master6") then
          { t with V6Rib := stringToUint32 d1, V6Fib := stringToUint32 d2 }
        else t)
    ⟨0, 0, 0, 0⟩

/-- `GetBGPTotal` (part_002 lines 44–78) composed with the session read
    loop; the argument is the daemon's raw response to `show route
    count`, and a transport or daemon error yields `none`. -/
def GetBGPTotal (resp : List Str) : Option Totals :=
  match querySocketLoop resp [] with
  | .ok out => some (bgpTotalFromOutput out)
  | _ => none

/-- `extractRouteCount` (part_002 lines 246–253). -/
def extractRouteCount (out : Str) : Nat :=
  match fields out with
  | [] => 0
  | f :: _ => stringToUint32 f

/-- C7: the concrete `show route count` exchange of the specification.
    Each wire line is a coded `1007-` data line whose payload matches the
    `N of N routes for N networks` phrase; the first number becomes the
    RIB size and the third the FIB size of the family named on the line. -/
theorem GetBGPTotal_example :
    GetBGPTotal
      [s2l "1007-2076414 of 2076414 routes for 1038207 networks in table master4",
       s2l "1007-471160 of 471160 routes for 235580 networks in table master6",
       s2l "0000"] =
      some ⟨2076414, 1038207, 471160, 235580⟩ := by
  decide

/-- C10 (counterexample): `" 123 "` contains non-digit characters
    (spaces), yet `stringToUint32` returns 123 rather than 0 — the
    string is trimmed before parsing. -/
theorem stringToUint32_trims_first :
    stringToUint32 (s2l " 123 ") = 123 ∧ stringToUint32 (s2l " 123 ") ≠ 0 := by
  refine ⟨by decide, by decide⟩

/-- C10 (amended): `stringToUint32` is total and never reports failure:
    whenever the input, after trimming surrounding whitespace, is empty,
    contains a non-digit, or encodes a value above 2^32-1, it returns 0.
    Consequently `extractRouteCount`, `decodeASPaths`, and
    `GetBGPTotal`'s line parser silently map malformed or overflowing
    numeric tokens to 0. -/
theorem stringToUint32_silent_zero :
    (∀ s : Str,
      trimSpace s = [] ∨ (∃ c ∈ trimSpace s, isDigitChar c = false) ∨
        2 ^ 32 - 1 < decVal (trimSpace s) →
      stringToUint32 s = 0) ∧
    extractRouteCount (s2l "abc of 5 routes") = 0 ∧
    (decodeASPaths (s2l "4294967296")).1 = [0] ∧
    bgpTotalFromOutput (s2l "4294967296 of 4294967296 routes for 99 networks in table master4") =
      ⟨0, 99, 0, 0⟩ := by
  refine ⟨?_, by decide, by decide, by decide⟩
  intro s h
  rw [stringToUint32]
  by_cases ht : trimSpace s = []
  · simp [ht]
  · simp only [ht, if_false]
    rcases h with h0 | hnd | hov
    · exact absurd h0 ht
    · have hall : (trimSpace s).all isDigitChar = false := by
        rcases hnd with ⟨c, hc, hcd⟩
        by_contra hcon
        rw [Bool.not_eq_false] at hcon
        rw [List.all_eq_true.1 hcon c hc] at hcd
        exact absurd hcd (by decide)
      simp [parseUint32, ht, hall]
    · by_cases hall : (trimSpace s).all isDigitChar = true
      · have hov' : ¬ decVal (trimSpace s) ≤ 4294967295 := by omega
        simp [parseUint32, ht, hall, hov']
      · rw [Bool.not_eq_true] at hall
        simp [parseUint32, ht, hall]

/-- C10 witness: an overflowing token (after trimming) collapses to 0. -/
theorem stringToUint32_silent_zero_witness :
    stringToUint32 (s2l " 99999999999 ") = 0 :=
  stringToUint32_silent_zero.1 (s2l " 99999999999 ") (Or.inr (Or.inr (by decide)))

/-! ## ASN statistics (part_002: GetTotalSourceASNs) -/

/-- The Go result struct `ASNs` (part_000). -/
structure ASNs where
  As4 : Nat
  As6 : Nat
  As10 : Nat
  As4Only : Nat
  As6Only : Nat
  AsBoth : Nat
deriving DecidableEq

/-- Match `\[AS(\d+)[ie]?\]` anchored at the start of `s`, returning the
    digit capture. -/
def tryASNAt : Str → Option Str
  | '[' :: 'A' :: 'S' :: rest =>
    let ds := rest.takeWhile isDigitChar
    if ds = [] then none
    else
      match rest.drop ds.length with
      | ']' :: _ => some ds
      | 'i' :: ']' :: _ => some ds
      | 'e' :: ']' :: _ => some ds
      | _ => none
  | _ => none

/-- Leftmost match of the source-ASN pattern in a line
    (Go `FindStringSubmatch`, capture 1). -/
def findASN : Str → Option Str
  | [] => none
  | c :: cs =>
    match tryASNAt (c :: cs) with
    | some d => some d
    | none => findASN cs

/-- `extractSourceASNs` (part_002 lines 177–198): at most one capture
    per line, deduplicated through a map.  Go's map iteration order is
    arbitrary; only membership and cardinality are observable. -/
def extractSourceASNs (output : Str) : List Str :=
  ((splitOnChar '\n' output).filterMap findASN).dedup

/-- `stringSliceToSet` (part_002 lines 636–647). -/
def stringSliceToSet (l : List Str) : List Str := l.dedup

/-- `stringSliceDifference` (part_002 lines 650–663). -/
def stringSliceDifference (first second : List Str) : List Str :=
  first.filter (fun s => decide (s ∉ second))

/-- `stringSliceIntersection` (part_002 lines 666–679). -/
def stringSliceIntersection (first second : List Str) : List Str :=
  first.filter (fun s => decide (s ∈ second))

/-- `GetTotalSourceASNs` (part_002 lines 137–175) as a function of the
    two route-listing payloads; `uint32(len(...))` is length mod 2^32. -/
def GetTotalSourceASNs (out4 out6 : Str) : ASNs :=
  let as4Set := extractSourceASNs out4
  let as6Set := extractSourceASNs out6
  let as10Set := stringSliceToSet (as4Set ++ as6Set)
  let as4Only := stringSliceDifference as4Set as6Set
  let as6Only := stringSliceDifference as6Set as4Set
  let asBoth := stringSliceIntersection as4Set as6Set
  { As4 := as4Set.length % 2 ^ 32
    As6 := as6Set.length % 2 ^ 32
    As10 := as10Set.length % 2 ^ 32
    As4Only := as4Only.length % 2 ^ 32
    As6Only := as6Only.length % 2 ^ 32
    AsBoth := asBoth.length % 2 ^ 32 }

/-- A list splits by membership in `B`: the two filters partition it. -/
theorem length_filter_partition (l B : List Str) :
    (l.filter (fun s => decide (s ∉ B))).length +
      (l.filter (fun s => decide (s ∈ B))).length = l.length := by
  induction l with
  | nil => rfl
  | cons a l ih =>
    rw [List.filter_cons, List.filter_cons]
    by_cases h : a ∈ B
    · rw [if_neg (show ¬ decide (a ∉ B) = true by simp [h]),
        if_pos (show decide (a ∈ B) = true by simp [h])]
      simp only [List.length_cons]
      omega
    · rw [if_pos (show decide (a ∉ B) = true by simp [h]),
        if_neg (show ¬ decide (a ∈ B) = true by simp [h])]
      simp only [List.length_cons]
      omega

/-- Extending the membership list by a fresh element adds exactly the
    occurrences of that element. -/
theorem length_filter_mem_cons (B : List Str) (a : Str) (A : List Str)
    (haA : a ∉ A) (hB : B.Nodup) :
    (B.filter (fun b => decide (b ∈ a :: A))).length =
      (if a ∈ B then 1 else 0) + (B.filter (fun b => decide (b ∈ A))).length := by
  induction B with
  | nil => simp
  | cons b B ih =>
    have hbB : b ∉ B := (List.nodup_cons.1 hB).1
    have hB' : B.Nodup := (List.nodup_cons.1 hB).2
    rw [List.filter_cons, List.filter_cons]
    by_cases hba : b = a
    · subst hba
      rw [if_pos (show decide (b ∈ b :: A) = true by simp),
        if_neg (show ¬ decide (b ∈ A) = true by simp [haA]),
        if_pos (List.mem_cons_self b B)]
      have hfix : B.filter (fun x => decide (x ∈ b :: A)) =
          B.filter (fun x => decide (x ∈ A)) := by
        apply List.filter_congr
        intro x hx
        have hxb : ¬ (x = b) := fun h => hbB (h ▸ hx)
        simp [List.mem_cons, hxb]
      rw [List.length_cons, hfix]
      omega
    · have hiff : (a ∈ b :: B) ↔ (a ∈ B) :=
        ⟨fun hm => by
          rcases List.mem_cons.1 hm with h | h
          · exact absurd h.symm hba
          · exact h,
         List.mem_cons_of_mem b⟩
      by_cases hbA : b ∈ A
      · rw [if_pos (show decide (b ∈ a :: A) = true by
            simp [List.mem_cons, hbA]),
          if_pos (show decide (b ∈ A) = true by simp [hbA]),
          List.length_cons, List.length_cons, ih hB']
        by_cases haB : a ∈ B
        · rw [if_pos haB, if_pos (hiff.2 haB)]
          omega
        · rw [if_neg haB, if_neg (fun hm => haB (hiff.1 hm))]
          omega
      · have h1 : ¬ decide (b ∈ a :: A) = true := by
          simp only [decide_eq_true_eq]
          intro hm
          rcases List.mem_cons.1 hm with h | h
          · exact hba h
          · exact hbA h
        rw [if_neg h1, if_neg (show ¬ decide (b ∈ A) = true by simp [hbA]), ih hB']
        by_cases haB : a ∈ B
        · rw [if_pos haB, if_pos (hiff.2 haB)]
        · rw [if_neg haB, if_neg (fun hm => haB (hiff.1 hm))]

/-- For duplicate-free lists, counting common elements is symmetric. -/
theorem length_filter_mem_comm (A B : List Str) (hA : A.Nodup) (hB : B.Nodup) :
    (A.filter (fun s => decide (s ∈ B))).length =
      (B.filter (fun s => decide (s ∈ A))).length := by
  induction A with
  | nil => simp
  | cons a A ih =>
    have haA : a ∉ A := (List.nodup_cons.1 hA).1
    have hA' : A.Nodup := (List.nodup_cons.1 hA).2
    rw [length_filter_mem_cons B a A haA hB, List.filter_cons]
    by_cases h : a ∈ B
    · rw [if_pos (show decide (a ∈ B) = true by simp [h]), if_pos h,
        List.length_cons, ih hA']
      omega
    · rw [if_neg (show ¬ decide (a ∈ B) = true by simp [h]), if_neg h, ih hA']
      omega

/-- Deduplicating the concatenation of two duplicate-free lists keeps
    the elements of the first that are absent from the second, then the
    second. -/
theorem dedup_append_of_nodup (A B : List Str) (hA : A.Nodup) (hB : B.Nodup) :
    (A ++ B).dedup = A.filter (fun a => decide (a ∉ B)) ++ B := by
  induction A with
  | nil => simpa using hB.dedup
  | cons a A ih =>
    have haA : a ∉ A := (List.nodup_cons.1 hA).1
    have hA' : A.Nodup := (List.nodup_cons.1 hA).2
    by_cases hab : a ∈ B
    · have hmem : a ∈ A ++ B := List.mem_append.2 (Or.inr hab)
      rw [List.cons_append, List.dedup_cons_of_mem hmem, ih hA']
      simp [List.filter_cons, hab]
    · have hmem : a ∉ A ++ B := by simp [haA, hab]
      rw [List.cons_append, List.dedup_cons_of_not_mem hmem, ih hA']
      simp [List.filter_cons, hab]

/-- C4: the set-algebra invariants of `GetTotalSourceASNs`, in the
    uint32 (mod 2^32) arithmetic the Go code performs: the per-family
    exclusive and shared counts sum to the family counts, and the union
    count is the sum of the three disjoint parts. -/
theorem GetTotalSourceASNs_algebra (out4 out6 : Str) :
    ((GetTotalSourceASNs out4 out6).As4Only + (GetTotalSourceASNs out4 out6).AsBoth) % 2 ^ 32 =
        (GetTotalSourceASNs out4 out6).As4 ∧
    ((GetTotalSourceASNs out4 out6).As6Only + (GetTotalSourceASNs out4 out6).AsBoth) % 2 ^ 32 =
        (GetTotalSourceASNs out4 out6).As6 ∧
    (GetTotalSourceASNs out4 out6).As10 =
      ((GetTotalSourceASNs out4 out6).As4Only + (GetTotalSourceASNs out4 out6).As6Only +
        (GetTotalSourceASNs out4 out6).AsBoth) % 2 ^ 32 := by
  have hA : (extractSourceASNs out4).Nodup := List.nodup_dedup _
  have hB : (extractSourceASNs out6).Nodup := List.nodup_dedup _
  set A := extractSourceASNs out4 with hAdef
  set B := extractSourceASNs out6 with hBdef
  have hmod2 : ∀ a b M : Nat, (a % M + b % M) % M = (a + b) % M := fun a b M =>
    (Nat.add_mod a b M).symm
  have hmod3 : ∀ a b c M : Nat, (a % M + b % M + c % M) % M = (a + b + c) % M :=
    fun a b c M =>
      ((Nat.mod_modEq a M).add ((Nat.mod_modEq b M)) |>.add (Nat.mod_modEq c M))
  have h4 : (A.filter (fun s => decide (s ∉ B))).length +
      (A.filter (fun s => decide (s ∈ B))).length = A.length :=
    length_filter_partition A B
  have h6comm : (B.filter (fun s => decide (s ∈ A))).length =
      (A.filter (fun s => decide (s ∈ B))).length :=
    (length_filter_mem_comm A B hA hB).symm
  have h6 : (B.filter (fun s => decide (s ∉ A))).length +
      (A.filter (fun s => decide (s ∈ B))).length = B.length := by
    have := length_filter_partition B A
    omega
  have h10 : ((A ++ B).dedup).length =
      (A.filter (fun s => decide (s ∉ B))).length + B.length := by
    rw [dedup_append_of_nodup A B hA hB, List.length_append]
  simp only [GetTotalSourceASNs, stringSliceToSet, stringSliceDifference,
    stringSliceIntersection, ← hAdef, ← hBdef]
  refine ⟨?_, ?_, ?_⟩
  · rw [hmod2]
    exact congrArg (· % 2 ^ 32) h4
  · rw [hmod2]
    exact congrArg (· % 2 ^ 32) h6
  · rw [hmod3]
    refine congrArg (· % 2 ^ 32) ?_
    omega

/-! ## Multi-query decoders (part_002: GetROAs, GetInvalids)

These decoders issue several queries through `querySocket`.  The model
abstracts the transport as a query function from command to the
`querySocket` result: either a payload or a daemon/transport error. -/

/-- A transport-level query function (command ↦ `querySocket` result). -/
abbrev QueryFn := Str → Except Str Str

/-- The Go result struct `Roas` (part_000). -/
structure Roas where
  V4v : Nat
  V4i : Nat
  V4u : Nat
  V6v : Nat
  V6i : Nat
  V6u : Nat
deriving DecidableEq

/-- The six ROA-count commands of `GetROAs`, verbatim. -/
def cmdV4Valid : Str :=
  s2l "show route primary table master4 where roa_check(roa_v4) = ROA_VALID count"

def cmdV4Invalid : Str :=
  s2l "show route primary table master4 where roa_check(roa_v4) = ROA_INVALID count"

def cmdV4Unknown : Str :=
  s2l "show route primary table master4 where roa_check(roa_v4) = ROA_UNKNOWN count"

def cmdV6Valid : Str :=
  s2l "show route primary table master6 where roa_check(roa_v6) = ROA_VALID count"

def cmdV6Invalid : Str :=
  s2l "show route primary table master6 where roa_check(roa_v6) = ROA_INVALID count"

def cmdV6Unknown : Str :=
  s2l "show route primary table master6 where roa_check(roa_v6) = ROA_UNKNOWN count"

/-- The two invalid-listing commands of `GetInvalids`, verbatim. -/
def cmdInvalid4 : Str :=
  s2l "show route primary table master4 where roa_check(roa_v4) = ROA_INVALID"

def cmdInvalid6 : Str :=
  s2l "show route primary table master6 where roa_check(roa_v6) = ROA_INVALID"

/-- `GetROAs` (part_002 lines 201–243): six sequential queries, each
    count stored into the result before the next query is issued; the
    Go function returns the pair `(Roas, error)`. -/
def GetROAs (q : QueryFn) : Roas × Option Str :=
  let r0 : Roas := ⟨0, 0, 0, 0, 0, 0⟩
  match q cmdV4Valid with
  | .error e => (r0, some e)
  | .ok s1 =>
    let r1 := { r0 with V4v := extractRouteCount s1 }
    match q cmdV4Invalid with
    | .error e => (r1, some e)
    | .ok s2 =>
      let r2 := { r1 with V4i := extractRouteCount s2 }
      match q cmdV4Unknown with
      | .error e => (r2, some e)
      | .ok s3 =>
        let r3 := { r2 with V4u := extractRouteCount s3 }
        match q cmdV6Valid with
        | .error e => (r3, some e)
        | .ok s4 =>
          let r4 := { r3 with V6v := extractRouteCount s4 }
          match q cmdV6Invalid with
          | .error e => (r4, some e)
          | .ok s5 =>
            let r5 := { r4 with V6i := extractRouteCount s5 }
            match q cmdV6Unknown with
            | .error e => (r5, some e)
            | .ok s6 => ({ r5 with V6u := extractRouteCount s6 }, none)

/-- Split at the first occurrence of `c` (Go `strings.Index`). -/
def breakAtChar (c : Char) : Str → Option (Str × Str)
  | [] => none
  | d :: ds =>
    if d = c then some ([], ds)
    else
      match breakAtChar c ds with
      | none => none
      | some (pre, post) => some (d :: pre, post)

/-- First maximal digit run (`regexp [\d]+`, `FindString`); empty if
    there is none. -/
def firstDigitRun : Str → Str
  | [] => []
  | c :: cs => if isDigitChar c then c :: cs.takeWhile isDigitChar else firstDigitRun cs

/-- `parseInvalidLine` (part_002 lines 290–311): first field is the
    network, the ASN is the first digit run at or after the first `[`. -/
def parseInvalidLine (line : Str) : Str × Str :=
  match fields line with
  | [] => ([], [])
  | [_] => ([], [])
  | f0 :: _ :: _ =>
    match breakAtChar '[' line with
    | none => ([], [])
    | some (_, post) => (f0, firstDigitRun ('[' :: post))

/-- The Go `map[string][]string` with per-key append, modelled as an
    association list in first-insertion key order. -/
def invAdd : List (Str × List Str) → Str → Str → List (Str × List Str)
  | [], k, v => [(k, [v])]
  | (k0, vs) :: rest, k, v =>
    if k0 = k then (k0, vs ++ [v]) :: rest
    else (k0, vs) :: invAdd rest k v

/-- The per-output line scan of `GetInvalids` (part_002 lines 266–271
    and 279–284). -/
def invAddLines (m : List (Str × List Str)) (lines : List Str) : List (Str × List Str) :=
  lines.foldl
    (fun m line =>
      let pa := parseInvalidLine line
      if pa.2 ≠ [] then invAdd m pa.2 pa.1 else m)
    m

/-- `GetInvalids` (part_002 lines 256–287): two sequential queries; the
    Go function returns the pair `(map, error)`. -/
def GetInvalids (q : QueryFn) : List (Str × List Str) × Option Str :=
  match q cmdInvalid4 with
  | .error e => ([], some e)
  | .ok out4 =>
    let m1 := invAddLines [] (splitOnChar '\n' out4)
    match q cmdInvalid6 with
    | .error e => (m1, some e)
    | .ok out6 => (invAddLines m1 (splitOnChar '\n' out6), none)

/-- A daemon whose IPv4 invalid listing succeeds with one route and
    whose IPv6 query reports a daemon error. -/
def qInvDemo : QueryFn := fun c =>
  if c = cmdInvalid4 then .ok (s2l "192.0.2.0/24 unreachable [AS64496i]")
  else .error (s2l "BIRD error: 8001 fail")

/-- C9 (counterexample): when the IPv6 sub-query of `GetInvalids` fails
    after the IPv4 sub-query succeeded, the returned value still carries
    the IPv4-derived entries alongside the error — the aggregated data of
    completed sub-queries is present, not discarded. -/
theorem getInvalids_partial_on_error :
    (GetInvalids qInvDemo).2 = some (s2l "BIRD error: 8001 fail") ∧
      (GetInvalids qInvDemo).1 = [(s2l "64496", [s2l "192.0.2.0/24"])] := by
  refine ⟨by decide, by decide⟩

/-- C9 (amended): a failing sub-query makes the decoder stop immediately
    and return that error, but the accompanying value retains whatever
    the earlier sub-queries contributed.  The conjuncts enumerate every
    first-failure position of `GetROAs` and `GetInvalids`, giving the
    exact partially-filled value returned with the error. -/
theorem multiQuery_abort_behavior (q : QueryFn) (e : Str) :
    (q cmdV4Valid = .error e → GetROAs q = (⟨0, 0, 0, 0, 0, 0⟩, some e)) ∧
    (∀ s1, q cmdV4Valid = .ok s1 → q cmdV4Invalid = .error e →
      GetROAs q = (⟨extractRouteCount s1, 0, 0, 0, 0, 0⟩, some e)) ∧
    (∀ s1 s2, q cmdV4Valid = .ok s1 → q cmdV4Invalid = .ok s2 →
      q cmdV4Unknown = .error e →
      GetROAs q = (⟨extractRouteCount s1, extractRouteCount s2, 0, 0, 0, 0⟩, some e)) ∧
    (∀ s1 s2 s3, q cmdV4Valid = .ok s1 → q cmdV4Invalid = .ok s2 →
      q cmdV4Unknown = .ok s3 → q cmdV6Valid = .error e →
      GetROAs q =
        (⟨extractRouteCount s1, extractRouteCount s2, extractRouteCount s3, 0, 0, 0⟩,
          some e)) ∧
    (∀ s1 s2 s3 s4, q cmdV4Valid = .ok s1 → q cmdV4Invalid = .ok s2 →
      q cmdV4Unknown = .ok s3 → q cmdV6Valid = .ok s4 → q cmdV6Invalid = .error e →
      GetROAs q =
        (⟨extractRouteCount s1, extractRouteCount s2, extractRouteCount s3,
          extractRouteCount s4, 0, 0⟩, some e)) ∧
    (∀ s1 s2 s3 s4 s5, q cmdV4Valid = .ok s1 → q cmdV4Invalid = .ok s2 →
      q cmdV4Unknown = .ok s3 → q cmdV6Valid = .ok s4 → q cmdV6Invalid = .ok s5 →
      q cmdV6Unknown = .error e →
      GetROAs q =
        (⟨extractRouteCount s1, extractRouteCount s2, extractRouteCount s3,
          extractRouteCount s4, extractRouteCount s5, 0⟩, some e)) ∧
    (q cmdInvalid4 = .error e → GetInvalids q = ([], some e)) ∧
    (∀ s, q cmdInvalid4 = .ok s → q cmdInvalid6 = .error e →
      GetInvalids q = (invAddLines [] (splitOnChar '\n' s), some e)) := by
  refine ⟨?_, ?_, ?_, ?_, ?_, ?_, ?_, ?_⟩
  · intro h1
    simp only [GetROAs, h1]
  · intro s1 h1 h2
    simp only [GetROAs, h1, h2]
  · intro s1 s2 h1 h2 h3
    simp only [GetROAs, h1, h2, h3]
  · intro s1 s2 s3 h1 h2 h3 h4
    simp only [GetROAs, h1, h2, h3, h4]
  · intro s1 s2 s3 s4 h1 h2 h3 h4 h5
    simp only [GetROAs, h1, h2, h3, h4, h5]
  · intro s1 s2 s3 s4 s5 h1 h2 h3 h4 h5 h6
    simp only [GetROAs, h1, h2, h3, h4, h5, h6]
  · intro h1
    simp only [GetInvalids, h1]
  · intro s h1 h2
    simp only [GetInvalids, h1, h2]

/-- A daemon whose first ROA count query succeeds and whose second
    reports a daemon error. -/
def qRoaDemo : QueryFn := fun c =>
  if c = cmdV4Valid then .ok (s2l "5 of 5 routes for 5 networks") else .error (s2l "boom")

/-- C9 witness: `GetROAs` aborted at the second query returns the first
    extracted count together with the error. -/
theorem multiQuery_abort_behavior_witness :
    GetROAs qRoaDemo = (⟨5, 0, 0, 0, 0, 0⟩, some (s2l "boom")) := by
  have h := (multiQuery_abort_behavior qRoaDemo (s2l "boom")).2.1
    (s2l "5 of 5 routes for 5 networks") rfl rfl
  rw [h]
  decide

/-! ## VRP parsing (part_002: GetVRPs, parseVRPs) and its standard
library collaborators `strconv.Atoi` and `net.ParseCIDR`. -/

/-- Go `strconv.Atoi` (= `ParseInt(s, 10, 0)`, 64-bit int): optional
    sign, at least one digit, 64-bit range. -/
def parseGoInt (s : Str) : Option Int :=
  match s with
  | [] => none
  | c :: cs =>
    let neg : Bool := c = '-'
    let digits := if c = '+' || c = '-' then cs else c :: cs
    if digits = [] then none
    else if digits.all isDigitChar then
      if neg then
        if decVal digits ≤ 2 ^ 63 then some (-(decVal digits : Int)) else none
      else if decVal digits ≤ 2 ^ 63 - 1 then some ((decVal digits : Int)) else none
    else none

/-- Go `net.dtoi` applied to a whole string as `ParseCIDR` requires for
    the mask: all characters are digits and the value stays below the
    cutoff `0xFFFFFF` (leading zeros allowed). -/
def dtoiFull (s : Str) : Option Nat :=
  if s ≠ [] ∧ s.all isDigitChar = true ∧ decVal s < 0xFFFFFF then some (decVal s) else none

/-- One decimal octet of an IPv4 address (Go ≥ 1.17: value 0–255, no
    leading zero). -/
def v4Octet (f : Str) : Option Nat :=
  if f = [] then none
  else if f.all isDigitChar = false then none
  else if 1 < f.length ∧ f.head? = some '0' then none
  else if decVal f ≤ 255 then some (decVal f) else none

/-- Go `parseIPv4`: four dot-separated octets, nothing else. -/
def parseIPv4 (s : Str) : Option (List Nat) :=
  match splitOnChar '.' s with
  | [a, b, c, d] => do
    let pa ← v4Octet a
    let pb ← v4Octet b
    let pc ← v4Octet c
    let pd ← v4Octet d
    pure [pa, pb, pc, pd]
  | _ => none

/-- Hexadecimal digit test of Go's IPv6 parser. -/
def isHexDigit (c : Char) : Bool :=
  ('0' ≤ c && c ≤ '9') || ('a' ≤ c && c ≤ 'f') || ('A' ≤ c && c ≤ 'F')

/-- Value of one hexadecimal digit. -/
def hexDigitVal (c : Char) : Nat :=
  if '0' ≤ c && c ≤ '9' then c.toNat - '0'.toNat
  else if 'a' ≤ c && c ≤ 'f' then c.toNat - 'a'.toNat + 10
  else c.toNat - 'A'.toNat + 10

/-- Hexadecimal value of a digit run. -/
def hexVal (s : Str) : Nat := s.foldl (fun a c => a * 16 + hexDigitVal c) 0

/-- Post-loop phase of Go's `parseIPv6`: the whole string must be
    consumed; a short address needs a `::` to expand, and a full one
    must not also carry a `::`. -/
def v6finish (bytes : List Nat) (ell : Option Nat) : Option (List Nat) :=
  if bytes.length < 16 then
    match ell with
    | none => none
    | some e => some (bytes.take e ++ List.replicate (16 - bytes.length) 0 ++ bytes.drop e)
  else if ell.isSome then none
  else some bytes

/-- The group loop of Go's `parseIPv6` (netip): read a hex group, then
    either an embedded IPv4 tail at a dot, the end of the string, or a
    colon (possibly a `::`, recorded once). Fuel is bounded by the input
    length; every iteration consumes at least one character. -/
def v6loop : Nat → Str → List Nat → Option Nat → Option (List Nat)
  | 0, _, _, _ => none
  | fuel + 1, s, bytes, ell =>
    let grp := s.takeWhile isHexDigit
    if grp = [] then none
    else if 0xFFFF < hexVal grp then none
    else
      let rest := s.drop grp.length
      if rest.head? = some '.' then
        if ell = none ∧ bytes.length ≠ 12 then none
        else if 16 < bytes.length + 4 then none
        else
          match parseIPv4 s with
          | none => none
          | some b4 => v6finish (bytes ++ b4) ell
      else
        let bytes2 := bytes ++ [hexVal grp / 256, hexVal grp % 256]
        if rest = [] then v6finish bytes2 ell
        else if rest.head? ≠ some ':' then none
        else if rest.length = 1 then none
        else
          let rest2 := rest.drop 1
          if rest2.head? = some ':' then
            if ell.isSome then none
            else
              let rest3 := rest2.drop 1
              if rest3 = [] then v6finish bytes2 (some bytes2.length)
              else if bytes2.length < 16 then v6loop fuel rest3 bytes2 (some bytes2.length)
              else none
          else if bytes2.length < 16 then v6loop fuel rest2 bytes2 ell
          else none

/-- Go `parseIPv6`: optional leading `::` (possibly the whole address),
    then the group loop. -/
def parseIPv6 (input : Str) : Option (List Nat) :=
  if input.take 2 = [':', ':'] then
    if input.drop 2 = [] then some (List.replicate 16 0)
    else v6loop (input.length + 1) (input.drop 2) [] (some 0)
  else v6loop (input.length + 1) input [] none

/-- Go `parseIPv6Zone`: a `%zone` suffix is split off and ignored. -/
def parseIPv6Zone (s : Str) : Option (List Nat) :=
  match breakAtChar '%' s with
  | none => parseIPv6 s
  | some (addr, _) => parseIPv6 addr

/-- Go `net.CIDRMask(n, 8*k)` as `k` bytes. -/
def cidrMask (n : Nat) : Nat → List Nat
  | 0 => []
  | k + 1 => if 8 ≤ n then 255 :: cidrMask (n - 8) k else (255 - (255 >>> n)) :: cidrMask 0 k

/-- The `*net.IPNet` produced by `ParseCIDR`: masked network bytes and
    mask bytes. -/
structure GoIPNet where
  ip : List Nat
  mask : List Nat
deriving DecidableEq

/-- Go `net.ParseCIDR`: split at the first `/`, parse the address as
    IPv4 and otherwise as IPv6, parse the mask length via `dtoi`
    (bounded by the address width), and mask the address. -/
def parseCIDR (s : Str) : Option GoIPNet :=
  match breakAtChar '/' s with
  | none => none
  | some (addr, maskStr) =>
    match parseIPv4 addr with
    | some b4 =>
      match dtoiFull maskStr with
      | none => none
      | some n =>
        if n ≤ 32 then
          let m := cidrMask n 4
          some ⟨(b4.zip m).map (fun p => p.1 &&& p.2), m⟩
        else none
    | none =>
      match parseIPv6Zone addr with
      | none => none
      | some b16 =>
        match dtoiFull maskStr with
        | none => none
        | some n =>
          if n ≤ 128 then
            let m := cidrMask n 16
            some ⟨(b16.zip m).map (fun p => p.1 &&& p.2), m⟩
          else none

/-- The Go result struct `VRP` (part_000); `Pfx` models the network
    field and `Max` the maximum length. -/
structure VRP where
  Pfx : GoIPNet
  Max : Int
deriving DecidableEq

/-- A local decode failure of `parseVRPs`: bad network or bad integer. -/
inductive VRPErr where
  | cidr (tok : Str)
  | atoi (tok : Str)
deriving DecidableEq

/-- Outcome of one line of `parseVRPs`. -/
inductive VRPStep where
  | err (e : VRPErr)
  | skip
  | add (v : VRP)
deriving DecidableEq

/-- One output line of `parseVRPs` (part_002 lines 609–628): a first
    token containing a hyphen and splitting into exactly two parts is
    parsed as network and maximum length; parse failures abort, any
    other shape is skipped. -/
def vrpLineStep (line : Str) : VRPStep :=
  match fields line with
  | [] => .skip
  | f0 :: _ =>
    if f0.any (fun c => c = '-') then
      match splitOnChar '-' f0 with
      | [p0, p1] =>
        match parseCIDR p0 with
        | none => .err (.cidr p0)
        | some ipnet =>
          match parseGoInt p1 with
          | none => .err (.atoi p1)
          | some mx => .add ⟨ipnet, mx⟩
      | _ => .skip
    else .skip

/-- The line loop of `parseVRPs`. -/
def parseVRPsGo : List Str → List VRP → Except VRPErr (List VRP)
  | [], acc => .ok acc
  | l :: rest, acc =>
    match vrpLineStep l with
    | .err e => .error e
    | .skip => parseVRPsGo rest acc
    | .add v => parseVRPsGo rest (acc ++ [v])

/-- `parseVRPs` (part_002 lines 605–631). -/
def parseVRPs (output : Str) : Except VRPErr (List VRP) :=
  parseVRPsGo (splitOnChar '\n' output) []

/-- `GetVRPs` (part_002 lines 568–602) as a function of the two query
    payloads (both transport exchanges succeeded); returns the Go pair
    `([]VRP, error)` — on a parse error the returned slice is nil. -/
def GetVRPs (out4 out6 : Str) : List VRP × Option VRPErr :=
  if out4 ≠ [] then
    match parseVRPs out4 with
    | .error e => ([], some e)
    | .ok v4 =>
      if out6 ≠ [] then
        match parseVRPs out6 with
        | .error e => ([], some e)
        | .ok v6 => (v4 ++ v6, none)
      else (v4, none)
  else if out6 ≠ [] then
    match parseVRPs out6 with
    | .error e => ([], some e)
    | .ok v6 => (v6, none)
  else ([], none)

/-- A malformed VRP line: the first token splits on one hyphen into a
    network part failing CIDR parsing or a length failing integer
    parsing. -/
def badVRPLine (l : Str) : Bool :=
  match fields l with
  | [] => false
  | f0 :: _ =>
    match splitOnChar '-' f0 with
    | [p0, p1] => (parseCIDR p0).isNone || (parseGoInt p1).isNone
    | _ => false

/-- C8 (counterexample): a first token with two hyphens (`x-y-z`) is
    silently skipped — `GetVRPs` returns no error and no entries even
    though the token contains a hyphen and can in no way be split into a
    valid prefix and integer. -/
theorem getVRPs_two_hyphens_skipped :
    GetVRPs (s2l "x-y-z") [] = ([], none) := by decide

/-- Splitting on a character absent from the string is the identity. -/
theorem splitOnChar_no_sep (c : Char) (s : Str) (h : c ∉ s) :
    splitOnChar c s = [s] := by
  induction s with
  | nil => rfl
  | cons d ds ih =>
    have hdc : ¬ (d = c) := fun hh => h (hh ▸ List.mem_cons_self d ds)
    have ihds := ih (fun hm => h (List.mem_cons_of_mem d hm))
    rw [splitOnChar]
    simp only [hdc, if_false, ihds]

/-- A malformed line makes `vrpLineStep` fail. -/
theorem badVRPLine_err (l : Str) (h : badVRPLine l = true) :
    ∃ e, vrpLineStep l = .err e := by
  cases hf : fields l with
  | nil => simp [badVRPLine, hf] at h
  | cons f0 fs =>
    cases hs : splitOnChar '-' f0 with
    | nil => simp [badVRPLine, hf, hs] at h
    | cons p0 ps =>
      cases ps with
      | nil => simp [badVRPLine, hf, hs] at h
      | cons p1 ps2 =>
        cases ps2 with
        | cons q qs => simp [badVRPLine, hf, hs] at h
        | nil =>
          have hany : f0.any (fun c => decide (c = '-')) = true := by
            by_contra hc
            rw [Bool.not_eq_true] at hc
            have hnm : '-' ∉ f0 := by
              intro hm
              have := List.any_eq_false.1 hc '-' hm
              simp at this
            rw [splitOnChar_no_sep '-' f0 hnm] at hs
            simp at hs
          simp only [badVRPLine, hf, hs] at h
          cases hc : parseCIDR p0 with
          | none =>
            exact ⟨.cidr p0, by simp [vrpLineStep, hf, hany, hs, hc]⟩
          | some ipn =>
            have hai : parseGoInt p1 = none := by
              rw [hc] at h
              cases hai2 : parseGoInt p1 with
              | none => rfl
              | some _ => rw [hai2] at h; simp at h
            exact ⟨.atoi p1, by simp [vrpLineStep, hf, hany, hs, hc, hai]⟩

/-- If any line of the input is malformed, the `parseVRPs` loop aborts
    with an error, whatever has been accumulated. -/
theorem parseVRPsGo_err (lines : List Str)
    (h : ∃ l ∈ lines, badVRPLine l = true) :
    ∀ acc, ∃ e, parseVRPsGo lines acc = .error e := by
  induction lines with
  | nil =>
    rcases h with ⟨l, hl, _⟩
    exact absurd hl (List.not_mem_nil l)
  | cons a lines ih =>
    rcases h with ⟨l, hl, hbad⟩
    intro acc
    rcases List.mem_cons.1 hl with rfl | hl2
    · obtain ⟨e, he⟩ := badVRPLine_err l hbad
      exact ⟨e, by simp [parseVRPsGo, he]⟩
    · cases hstep : vrpLineStep a with
      | err e => exact ⟨e, by simp [parseVRPsGo, hstep]⟩
      | skip =>
        obtain ⟨e, he⟩ := ih ⟨l, hl2, hbad⟩ acc
        exact ⟨e, by simp [parseVRPsGo, hstep, he]⟩
      | add v =>
        obtain ⟨e, he⟩ := ih ⟨l, hl2, hbad⟩ (acc ++ [v])
        exact ⟨e, by simp [parseVRPsGo, hstep, he]⟩

/-- A payload containing a malformed line is non-empty. -/
theorem badVRPLine_nonempty (out : Str)
    (h : ∃ l ∈ splitOnChar '\n' out, badVRPLine l = true) : out ≠ [] := by
  intro hnil
  subst hnil
  rcases h with ⟨l, hl, hbad⟩
  have hle : l = ([] : Str) := by
    simpa [splitOnChar] using hl
  subst hle
  simp [badVRPLine, fields, fieldsGo] at hbad

/-- C8 (amended): if any output line's first token splits on exactly one
    hyphen into a prefix failing CIDR parsing or a length failing
    integer parsing, the whole `GetVRPs` call returns an error with no
    partial VRP list.  (A first token with several hyphens is skipped
    silently instead, as the counterexample shows.) -/
theorem GetVRPs_malformed_aborts (out4 out6 : Str)
    (h : (∃ l ∈ splitOnChar '\n' out4, badVRPLine l = true) ∨
         (∃ l ∈ splitOnChar '\n' out6, badVRPLine l = true)) :
    (GetVRPs out4 out6).1 = [] ∧ (GetVRPs out4 out6).2.isSome = true := by
  rcases h with h4 | h6
  · have hne := badVRPLine_nonempty out4 h4
    obtain ⟨e, he⟩ := parseVRPsGo_err _ h4 []
    have hp : parseVRPs out4 = .error e := he
    simp [GetVRPs, hne, hp]
  · have hne6 := badVRPLine_nonempty out6 h6
    obtain ⟨e, he⟩ := parseVRPsGo_err _ h6 []
    have hp : parseVRPs out6 = .error e := he
    by_cases h4e : out4 = []
    · simp [GetVRPs, h4e, hne6, hp]
    · cases hp4 : parseVRPs out4 with
      | error e4 => simp [GetVRPs, h4e, hp4]
      | ok v4 => simp [GetVRPs, h4e, hne6, hp4, hp]

/-- C8 witness: a line whose maximum length is not an integer aborts
    the call with an error and an empty list. -/
theorem GetVRPs_malformed_aborts_witness :
    (GetVRPs (s2l "1.2.3.0/24-abc") []).1 = [] ∧
      (GetVRPs (s2l "1.2.3.0/24-abc") []).2.isSome = true :=
  GetVRPs_malformed_aborts (s2l "1.2.3.0/24-abc") [] (Or.inl (by decide))
